import Mathlib

/-!
Verification of the PDK layer-resolution model of the klayout pin tool
(`pymacros/pin_pdk_info.py`).

The model is a pure data-resolution layer: a per-technology table
(`PinPDKInfo`) of named layer groups and pin/label layer associations,
with lookup and set-union operations over it, plus a registry
(`PinPDKInfoFactory`) that loads all tables discovered in a set of
search directories and indexes them by technology name.

The Python source is embedded shallowly: dataclasses become structures,
list comprehensions become `List.filter` / bind, the implicit `None`
fall-through of `pin_layer_info` becomes `Option`, the JSON value space
becomes an inductive `Json` type, and the factory's file scan becomes a
fold over an explicit list of discovered files (path plus JSON content).
Python's `list(set(...))` deduplication has no specified order; it is
embedded as the deterministic `List.dedup` (all claims about the result
treat it as a set, so the particular order chosen is irrelevant).
-/

/-- Unique name of a drawing layer, e.g. `Metal1.drawing`. -/
abbrev LayerUniqueName := String

/-- Unique name of a named layer group. -/
abbrev LayerGroupUniqueName := String

/-- `NamedLayerGroup` dataclass: a named alias for a list of layers. -/
structure NamedLayerGroup where
  name : LayerGroupUniqueName
  layers : List LayerUniqueName
deriving DecidableEq

/-- `PinLayerInfo` dataclass: associates a short layer name with group
references for related, pin and label layers.  (The Python type hints
say `LayerGroupUniqueName` but every constructed value and every use
site treats the three fields as lists of group names.) -/
structure PinLayerInfo where
  short_layer_name : String
  related_layers : List LayerGroupUniqueName
  pin_layers : List LayerGroupUniqueName
  label_layers : List LayerGroupUniqueName
deriving DecidableEq

/-- `PinPDKInfo` dataclass: one table per fabrication technology. -/
structure PinPDKInfo where
  tech_name : String
  layer_group_definitions : List NamedLayerGroup
  pin_layer_infos : List PinLayerInfo
deriving DecidableEq

/-- `PinPDKInfo.layer_groups`:
`[g for g in self.layer_group_definitions if g.name in names]`. -/
def PinPDKInfo.layer_groups (self : PinPDKInfo)
    (names : List LayerGroupUniqueName) : List NamedLayerGroup :=
  self.layer_group_definitions.filter (fun g => g.name ∈ names)

/-- `PinPDKInfo.layers_of_groups`:
`list(set([l for g in layer_groups for l in g.layers]))`.
The Python `set` order is unspecified; embedded as `List.dedup`. -/
def PinPDKInfo.layers_of_groups (self : PinPDKInfo)
    (names : List LayerGroupUniqueName) : List LayerUniqueName :=
  ((self.layer_groups names).flatMap (fun g => g.layers)).dedup

/-- The loop body of `PinPDKInfo.pin_layer_info`, scanning the remaining
entries: each iteration first compares `related_layer` with the entry's
`short_layer_name`, then tests membership in the entry's expanded group
union; falling off the end returns Python's implicit `None`. -/
def PinPDKInfo.pinScan (self : PinPDKInfo) (related_layer : LayerUniqueName) :
    List PinLayerInfo → Option PinLayerInfo
  | [] => none
  | pli :: rest =>
    if related_layer = pli.short_layer_name then
      some pli
    else if related_layer ∈
        self.layers_of_groups
          (pli.related_layers ++ pli.pin_layers ++ pli.label_layers) then
      some pli
    else
      self.pinScan related_layer rest

/-- `PinPDKInfo.pin_layer_info`: linear scan over `pin_layer_infos`. -/
def PinPDKInfo.pin_layer_info (self : PinPDKInfo)
    (related_layer : LayerUniqueName) : Option PinLayerInfo :=
  self.pinScan related_layer self.pin_layer_infos

/-! ## JSON serialization

`write_json` is `json.dump(asdict(self), ...)`; `asdict` recursively
turns dataclasses into dicts whose keys are the field names in
declaration order.  `read_json` is `dataclass_from_dict(cls, json.load(f))`.
The text encoding/decoding pair `json.dump`/`json.load` is the Python
standard library and is the identity on the string/list/object values
used here, so both operations are embedded at the JSON *value* level. -/

/-- JSON values as used by the declarative table files: strings, arrays
and string-keyed objects (field order kept, as `json.dump` keeps it). -/
inductive Json where
  | str : String → Json
  | arr : List Json → Json
  | obj : List (String × Json) → Json

/-- `asdict` of a `NamedLayerGroup`. -/
def NamedLayerGroup.toJson (g : NamedLayerGroup) : Json :=
  Json.obj [("name", Json.str g.name),
            ("layers", Json.arr (g.layers.map Json.str))]

/-- `asdict` of a `PinLayerInfo`. -/
def PinLayerInfo.toJson (p : PinLayerInfo) : Json :=
  Json.obj [("short_layer_name", Json.str p.short_layer_name),
            ("related_layers", Json.arr (p.related_layers.map Json.str)),
            ("pin_layers", Json.arr (p.pin_layers.map Json.str)),
            ("label_layers", Json.arr (p.label_layers.map Json.str))]

/-- `PinPDKInfo.write_json`: `json.dump(asdict(self), f, indent=4)`,
embedded at the JSON value level. -/
def PinPDKInfo.write_json (self : PinPDKInfo) : Json :=
  Json.obj
    [("tech_name", Json.str self.tech_name),
     ("layer_group_definitions",
      Json.arr (self.layer_group_definitions.map NamedLayerGroup.toJson)),
     ("pin_layer_infos",
      Json.arr (self.pin_layer_infos.map PinLayerInfo.toJson))]

/-- Decode a JSON value as a string. -/
def Json.asStr : Json → Option String
  | .str s => some s
  | _ => none

/-- Decode every element of a JSON array; the first failure fails the
whole array (Python raises out of the comprehension). -/
def decodeAll (f : Json → Option α) : List Json → Option (List α)
  | [] => some []
  | x :: xs => do
    let a ← f x
    let as ← decodeAll f xs
    pure (a :: as)

/-- Decode a JSON value as a list of strings. -/
def Json.asStrList : Json → Option (List String)
  | .arr xs => decodeAll Json.asStr xs
  | _ => none

/-- Modelled from the spec: the reflective field matching of
`dataclass_from_dict` (from `klayout_plugin_utils`, not part of this
repository's sources) applied to a `NamedLayerGroup`: each declared
field is looked up by name and decoded at its declared type; a missing
field or wrong type fails the whole file. -/
def NamedLayerGroup.fromJson : Json → Option NamedLayerGroup
  | .obj fields => do
    let n ← (fields.lookup "name").bind Json.asStr
    let ls ← (fields.lookup "layers").bind Json.asStrList
    pure ⟨n, ls⟩
  | _ => none

/-- Modelled from the spec: `dataclass_from_dict` applied to a
`PinLayerInfo` (see `NamedLayerGroup.fromJson`). -/
def PinLayerInfo.fromJson : Json → Option PinLayerInfo
  | .obj fields => do
    let sn ← (fields.lookup "short_layer_name").bind Json.asStr
    let rl ← (fields.lookup "related_layers").bind Json.asStrList
    let pl ← (fields.lookup "pin_layers").bind Json.asStrList
    let ll ← (fields.lookup "label_layers").bind Json.asStrList
    pure ⟨sn, rl, pl, ll⟩
  | _ => none

/-- `PinPDKInfo.read_json`: `dataclass_from_dict(cls, json.load(f))`,
with `dataclass_from_dict` modelled from the spec (see
`NamedLayerGroup.fromJson`); failure (any Python exception during
parsing) is `none`. -/
def PinPDKInfo.read_json : Json → Option PinPDKInfo
  | .obj fields => do
    let tn ← (fields.lookup "tech_name").bind Json.asStr
    let gsJson ← fields.lookup "layer_group_definitions"
    let gs ← match gsJson with
      | .arr xs => decodeAll NamedLayerGroup.fromJson xs
      | _ => none
    let psJson ← fields.lookup "pin_layer_infos"
    let ps ← match psJson with
      | .arr xs => decodeAll PinLayerInfo.fromJson xs
      | _ => none
    pure ⟨tn, gs, ps⟩
  | _ => none

/-! ## The factory (registry) -/

/-- One file discovered by the glob `p.glob('*.json')`: its path and its
JSON content.  A file whose content fails to decode into a `PinPDKInfo`
is a malformed file. -/
structure PDKFile where
  path : String
  data : Json

/-- The set comprehension `{f for p in search_path for f in p.glob(...)}`:
paths are deduplicated (a real filesystem maps each path to one content,
so deduplicating by path is deduplication of the files). -/
def dedupByPath : List PDKFile → List PDKFile
  | [] => []
  | f :: rest =>
    if rest.any (fun g => g.path = f.path) then dedupByPath rest
    else f :: dedupByPath rest

/-- Insert a file into a path-sorted list, keeping it sorted. -/
def insertByPath (f : PDKFile) : List PDKFile → List PDKFile
  | [] => [f]
  | g :: rest =>
    if f.path ≤ g.path then f :: g :: rest else g :: insertByPath f rest

/-- Python's `sorted` on the deduplicated paths: lexicographic by path
(insertion sort; the paths are distinct after deduplication, so any
comparison sort yields the same list). -/
def sortByPath : List PDKFile → List PDKFile
  | [] => []
  | f :: rest => insertByPath f (sortByPath rest)

/-- Python dict assignment `d[k] = v`: overwrite the binding of `k` in
place if present, else append a new binding. -/
def dictInsert (k : String) (v : PinPDKInfo) :
    List (String × PinPDKInfo) → List (String × PinPDKInfo)
  | [] => [(k, v)]
  | (k', v') :: rest =>
    if k' = k then (k, v) :: rest else (k', v') :: dictInsert k v rest

/-- `PinPDKInfoFactory`: the registry of tables keyed by technology
name, plus the diagnostics printed for files that failed to parse. -/
structure PinPDKInfoFactory where
  pdk_infos_by_tech_name : List (String × PinPDKInfo)
  diagnostics : List String
deriving DecidableEq

/-- One iteration of the factory's loading loop: parse the file; on
success insert/overwrite the registry entry keyed by the declared
`tech_name`; on failure record a diagnostic for the file and continue. -/
def processFile (acc : PinPDKInfoFactory) (f : PDKFile) : PinPDKInfoFactory :=
  match PinPDKInfo.read_json f.data with
  | some info =>
    { acc with pdk_infos_by_tech_name :=
        dictInsert info.tech_name info acc.pdk_infos_by_tech_name }
  | none =>
    { acc with diagnostics := acc.diagnostics ++ [f.path] }

/-- `PinPDKInfoFactory.__init__`: deduplicate and sort the discovered
files, then load each in order.  `discovered` is the concatenation of
the glob results over all search directories. -/
def PinPDKInfoFactory.init (discovered : List PDKFile) : PinPDKInfoFactory :=
  (sortByPath (dedupByPath discovered)).foldl processFile ⟨[], []⟩

/-- `PinPDKInfoFactory.pdk_info`:
`self._pdk_infos_by_tech_name.get(tech_name, None)`. -/
def PinPDKInfoFactory.pdk_info (self : PinPDKInfoFactory)
    (tech_name : String) : Option PinPDKInfo :=
  self.pdk_infos_by_tech_name.lookup tech_name

/-! ## Shared lemmas -/

theorem mem_layer_groups (T : PinPDKInfo) (S : List LayerGroupUniqueName)
    (g : NamedLayerGroup) :
    g ∈ T.layer_groups S ↔ g ∈ T.layer_group_definitions ∧ g.name ∈ S := by
  simp [PinPDKInfo.layer_groups]

theorem mem_layers_of_groups (T : PinPDKInfo) (S : List LayerGroupUniqueName)
    (l : LayerUniqueName) :
    l ∈ T.layers_of_groups S ↔ ∃ g, g ∈ T.layer_groups S ∧ l ∈ g.layers := by
  simp [PinPDKInfo.layers_of_groups, List.mem_dedup, List.mem_flatMap]

theorem pinScan_append_of_skipped (T : PinPDKInfo) (L : LayerUniqueName)
    (pre rest : List PinLayerInfo)
    (h : ∀ q ∈ pre, L ≠ q.short_layer_name ∧
      L ∉ T.layers_of_groups (q.related_layers ++ q.pin_layers ++ q.label_layers)) :
    T.pinScan L (pre ++ rest) = T.pinScan L rest := by
  induction pre with
  | nil => rfl
  | cons q qs ih =>
    have hq := h q (List.mem_cons_self q qs)
    rw [List.cons_append, PinPDKInfo.pinScan, if_neg hq.1, if_neg hq.2]
    exact ih (fun r hr => h r (List.mem_cons_of_mem q hr))

theorem mem_dedupByPath (x : PDKFile) (l : List PDKFile)
    (h : x ∈ dedupByPath l) : x ∈ l := by
  induction l with
  | nil => exact absurd h (List.not_mem_nil x)
  | cons f rest ih =>
    rw [dedupByPath] at h
    by_cases hc : rest.any (fun g => g.path = f.path) = true
    · rw [if_pos hc] at h
      exact List.mem_cons_of_mem f (ih h)
    · rw [if_neg hc] at h
      rcases List.mem_cons.mp h with h1 | h2
      · exact h1 ▸ List.mem_cons_self f rest
      · exact List.mem_cons_of_mem f (ih h2)

theorem mem_insertByPath (x f : PDKFile) (l : List PDKFile)
    (h : x ∈ insertByPath f l) : x = f ∨ x ∈ l := by
  induction l with
  | nil =>
    rw [insertByPath] at h
    rcases List.mem_cons.mp h with h1 | h2
    · exact Or.inl h1
    · exact Or.inr h2
  | cons g rest ih =>
    rw [insertByPath] at h
    by_cases hc : f.path ≤ g.path
    · rw [if_pos hc] at h
      rcases List.mem_cons.mp h with h1 | h2
      · exact Or.inl h1
      · exact Or.inr h2
    · rw [if_neg hc] at h
      rcases List.mem_cons.mp h with h1 | h2
      · exact Or.inr (h1 ▸ List.mem_cons_self g rest)
      · rcases ih h2 with h3 | h4
        · exact Or.inl h3
        · exact Or.inr (List.mem_cons_of_mem g h4)

theorem mem_sortByPath (x : PDKFile) (l : List PDKFile)
    (h : x ∈ sortByPath l) : x ∈ l := by
  induction l with
  | nil => exact absurd h (List.not_mem_nil x)
  | cons f rest ih =>
    rw [sortByPath] at h
    rcases mem_insertByPath x f (sortByPath rest) h with h1 | h2
    · exact h1 ▸ List.mem_cons_self f rest
    · exact List.mem_cons_of_mem f (ih h2)

theorem foldl_processFile_all_malformed (l : List PDKFile)
    (acc : PinPDKInfoFactory)
    (h : ∀ x ∈ l, PinPDKInfo.read_json x.data = none) :
    (l.foldl processFile acc).pdk_infos_by_tech_name =
      acc.pdk_infos_by_tech_name := by
  induction l generalizing acc with
  | nil => rfl
  | cons f rest ih =>
    rw [List.foldl_cons]
    have hf := h f (List.mem_cons_self f rest)
    have hstep : processFile acc f =
        { acc with diagnostics := acc.diagnostics ++ [f.path] } := by
      rw [processFile, hf]
    rw [hstep, ih _ (fun x hx => h x (List.mem_cons_of_mem f hx))]

theorem lookup_mem (k : String) (v : PinPDKInfo)
    (l : List (String × PinPDKInfo)) (h : l.lookup k = some v) : (k, v) ∈ l := by
  induction l with
  | nil => exact absurd h (by simp [List.lookup])
  | cons p rest ih =>
    obtain ⟨a, b⟩ := p
    rw [List.lookup] at h
    cases hb : k == a with
    | true =>
      rw [hb] at h
      have ha : k = a := by simpa using hb
      have hv : b = v := by simpa using h
      rw [ha, hv]
      exact List.mem_cons_self (a, v) rest
    | false =>
      rw [hb] at h
      exact List.mem_cons_of_mem (a, b) (ih h)

theorem lookup_eq_none_iff (k : String) (l : List (String × PinPDKInfo)) :
    l.lookup k = none ↔ k ∉ l.map Prod.fst := by
  induction l with
  | nil => simp [List.lookup]
  | cons p rest ih =>
    obtain ⟨a, b⟩ := p
    rw [List.lookup]
    cases hb : k == a with
    | true =>
      have ha : k = a := by simpa using hb
      simp [hb, ha]
    | false =>
      have ha : ¬ k = a := by simpa using hb
      simp [hb, ih, ha]

theorem decodeAll_str (ls : List String) :
    decodeAll Json.asStr (ls.map Json.str) = some ls := by
  induction ls with
  | nil => rfl
  | cons a l ih => simp [decodeAll, Json.asStr, ih]

theorem group_from_to (g : NamedLayerGroup) :
    NamedLayerGroup.fromJson g.toJson = some g := by
  simp [NamedLayerGroup.toJson, NamedLayerGroup.fromJson, List.lookup,
        Json.asStr, Json.asStrList, decodeAll_str]

theorem pli_from_to (p : PinLayerInfo) :
    PinLayerInfo.fromJson p.toJson = some p := by
  simp [PinLayerInfo.toJson, PinLayerInfo.fromJson, List.lookup,
        Json.asStr, Json.asStrList, decodeAll_str]

theorem decodeAll_groups (gs : List NamedLayerGroup) :
    decodeAll NamedLayerGroup.fromJson (gs.map NamedLayerGroup.toJson) =
      some gs := by
  induction gs with
  | nil => rfl
  | cons g l ih => simp [decodeAll, group_from_to, ih]

theorem decodeAll_plis (ps : List PinLayerInfo) :
    decodeAll PinLayerInfo.fromJson (ps.map PinLayerInfo.toJson) = some ps := by
  induction ps with
  | nil => rfl
  | cons p l ih => simp [decodeAll, pli_from_to, ih]

/-! ## Concrete sample data used by witnesses and counterexamples -/

/-- A small sample table: one group `g1 = {a, b}`, one pin entry. -/
def sampleT : PinPDKInfo :=
  ⟨"x", [⟨"g1", ["a", "b"]⟩], [⟨"s", ["g1"], ["g2"], []⟩]⟩

/-- A second sample table with the same technology name as `sampleT`. -/
def sampleT2 : PinPDKInfo := ⟨"x", [], []⟩

/-- Table whose first entry captures the second entry's short name via
group expansion: group `G` contains the layer `B`, which is also the
`short_layer_name` of the second entry. -/
def capturePli0 : PinLayerInfo := ⟨"A", ["G"], [], []⟩

def capturePli1 : PinLayerInfo := ⟨"B", [], [], []⟩

def captureT : PinPDKInfo := ⟨"t", [⟨"G", ["B"]⟩], [capturePli0, capturePli1]⟩

/-- Table where the earlier entry does not capture the later entry's
short name: group `G` only contains `x`. -/
def cleanT : PinPDKInfo :=
  ⟨"w", [⟨"G", ["x"]⟩], [⟨"A", ["G"], [], []⟩, ⟨"B", [], [], []⟩]⟩

/-- A well-formed file: parses to `sampleT`. -/
def fileGood : PDKFile := ⟨"a.json", sampleT.write_json⟩

/-- A malformed file: its content is not an object. -/
def fileBad : PDKFile := ⟨"b.json", Json.str "oops"⟩

/-- A second well-formed file, later in path order than `fileGood`,
declaring the same technology name `x`. -/
def fileGood2 : PDKFile := ⟨"c.json", sampleT2.write_json⟩

/-! ## Claims about the table operations -/

/-- C1 counterexample: in `captureT`, the entry `capturePli1` has short
name `B`, yet `pin_layer_info "B"` returns the *earlier* entry
`capturePli0`, because the scan tests each entry's group expansion
before moving on to the next entry's exact short-name comparison: group
`G` of `capturePli0` contains the layer `B`.  So the exact short-name
match is *not* checked for every entry before group expansion, and
`resolve(T, p.shortName) = p` fails. -/
theorem pin_layer_info_exact_cex :
    capturePli1 ∈ captureT.pin_layer_infos ∧
    capturePli1.short_layer_name = "B" ∧
    captureT.pin_layer_info "B" = some capturePli0 ∧
    captureT.pin_layer_info "B" ≠ some capturePli1 := by
  decide

/-- C1 (amended): the scan interleaves the exact short-name comparison
and the group expansion per entry, so the exact-name fast path wins only
against *later* entries.  `resolve(T, p.shortName) = p` holds for every
entry `p` such that no earlier entry (in stored order) has the same
short name or contains `p.short_layer_name` in its expanded group
union. -/
theorem pin_layer_info_exact_of_no_earlier_match (T : PinPDKInfo)
    (pre post : List PinLayerInfo) (p : PinLayerInfo)
    (hsplit : T.pin_layer_infos = pre ++ p :: post)
    (hpre : ∀ q ∈ pre, p.short_layer_name ≠ q.short_layer_name ∧
      p.short_layer_name ∉ T.layers_of_groups
        (q.related_layers ++ q.pin_layers ++ q.label_layers)) :
    T.pin_layer_info p.short_layer_name = some p := by
  rw [PinPDKInfo.pin_layer_info, hsplit,
      pinScan_append_of_skipped T p.short_layer_name pre (p :: post) hpre,
      PinPDKInfo.pinScan, if_pos rfl]

/-- Witness for C1 (amended): in `cleanT` the first entry's group `G`
expands to `{x}` only, so the second entry is found by its exact short
name `B`. -/
theorem pin_layer_info_exact_of_no_earlier_match_witness :
    cleanT.pin_layer_info "B" = some ⟨"B", [], [], []⟩ :=
  pin_layer_info_exact_of_no_earlier_match cleanT
    [⟨"A", ["G"], [], []⟩] [] ⟨"B", [], [], []⟩ rfl (by decide)

/-- C2: a layer name that equals no entry's short name and belongs to no
entry's expanded group union resolves to `none` (absence, not an
error). -/
theorem pin_layer_info_none_of_unreferenced (T : PinPDKInfo)
    (L : LayerUniqueName)
    (h : ∀ p ∈ T.pin_layer_infos, L ≠ p.short_layer_name ∧
      L ∉ T.layers_of_groups
        (p.related_layers ++ p.pin_layers ++ p.label_layers)) :
    T.pin_layer_info L = none := by
  rw [PinPDKInfo.pin_layer_info,
      show T.pin_layer_infos = T.pin_layer_infos ++ [] by simp,
      pinScan_append_of_skipped T L T.pin_layer_infos [] h]
  rfl

/-- Witness for C2: the layer `zzz` is unknown to `sampleT`. -/
theorem pin_layer_info_none_of_unreferenced_witness :
    sampleT.pin_layer_info "zzz" = none :=
  pin_layer_info_none_of_unreferenced sampleT "zzz" (by decide)

/-- C3: `layer_groups` returns exactly the groups whose name is in the
input collection, as a sublist (hence in stored order) of the table's
group definitions; unmatched names contribute nothing, and the table is
untouched (the operation is a pure function of `T` and `S`). -/
theorem layer_groups_spec (T : PinPDKInfo) (S : List LayerGroupUniqueName) :
    List.Sublist (T.layer_groups S) T.layer_group_definitions ∧
    ∀ g, g ∈ T.layer_groups S ↔
      g ∈ T.layer_group_definitions ∧ g.name ∈ S := by
  exact ⟨List.filter_sublist _, fun g => mem_layer_groups T S g⟩

/-- C4: `layers_of_groups`, viewed as a set, is the union of the
`layers` of the groups selected by `layer_groups`; the result carries no
duplicates; and an empty selection (in particular an empty input) yields
the empty result. -/
theorem layers_of_groups_spec (T : PinPDKInfo) (S : List LayerGroupUniqueName) :
    (∀ l, l ∈ T.layers_of_groups S ↔
      ∃ g, g ∈ T.layer_groups S ∧ l ∈ g.layers) ∧
    (T.layers_of_groups S).Nodup ∧
    (T.layer_groups S = [] → T.layers_of_groups S = []) ∧
    T.layers_of_groups [] = [] := by
  refine ⟨mem_layers_of_groups T S, List.nodup_dedup _, ?_, ?_⟩
  · intro h
    rw [PinPDKInfo.layers_of_groups, h]
    rfl
  · rw [PinPDKInfo.layers_of_groups,
        show T.layer_groups [] = [] by simp [PinPDKInfo.layer_groups]]
    rfl

/-- Witness for C4 at a concrete table and name list. -/
theorem layers_of_groups_spec_witness :
    ("a" ∈ sampleT.layers_of_groups ["g1"] ↔
      ∃ g, g ∈ sampleT.layer_groups ["g1"] ∧ "a" ∈ g.layers) ∧
    sampleT.layers_of_groups [] = [] :=
  ⟨(layers_of_groups_spec sampleT ["g1"]).1 "a",
   (layers_of_groups_spec sampleT ["g1"]).2.2.2⟩

/-- C5: every layer produced by `layers_of_groups` occurs in the
`layers` of some group declared in the table, and the result is empty
when no input name equals the name of any declared group. -/
theorem layers_of_groups_subset_all (T : PinPDKInfo)
    (S : List LayerGroupUniqueName) :
    (∀ l ∈ T.layers_of_groups S,
      ∃ g, g ∈ T.layer_group_definitions ∧ l ∈ g.layers) ∧
    ((∀ g ∈ T.layer_group_definitions, g.name ∉ S) →
      T.layers_of_groups S = []) := by
  constructor
  · intro l hl
    obtain ⟨g, hg, hlg⟩ := (mem_layers_of_groups T S l).mp hl
    exact ⟨g, ((mem_layer_groups T S g).mp hg).1, hlg⟩
  · intro h
    rw [PinPDKInfo.layers_of_groups,
        show T.layer_groups S = [] by
          rw [PinPDKInfo.layer_groups, List.filter_eq_nil_iff]
          intro g hg
          simpa using h g hg]
    rfl

/-- Witness for C5: the layer `a` obtained from `g1` is declared in
`sampleT`, and a list of unknown group names selects nothing. -/
theorem layers_of_groups_subset_all_witness :
    (∃ g, g ∈ sampleT.layer_group_definitions ∧ "a" ∈ g.layers) ∧
    sampleT.layers_of_groups ["nope"] = [] :=
  ⟨(layers_of_groups_subset_all sampleT ["g1"]).1 "a" (by decide),
   (layers_of_groups_subset_all sampleT ["nope"]).2 (by decide)⟩

/-- C10: `layers_of_groups` depends only on the *set* of input names:
two inputs with the same members (regardless of order or duplicates)
yield the same result up to set equality; in particular the list
concatenation `related_layers + pin_layers + label_layers` used inside
`pin_layer_info` expands exactly as the set union of the three
collections would. -/
theorem layers_of_groups_ext (T : PinPDKInfo)
    (S1 S2 : List LayerGroupUniqueName)
    (h : ∀ n, n ∈ S1 ↔ n ∈ S2) :
    ∀ l, l ∈ T.layers_of_groups S1 ↔ l ∈ T.layers_of_groups S2 := by
  intro l
  rw [mem_layers_of_groups, mem_layers_of_groups]
  constructor
  · rintro ⟨g, hg, hl⟩
    refine ⟨g, ?_, hl⟩
    rw [mem_layer_groups] at hg ⊢
    exact ⟨hg.1, (h g.name).mp hg.2⟩
  · rintro ⟨g, hg, hl⟩
    refine ⟨g, ?_, hl⟩
    rw [mem_layer_groups] at hg ⊢
    exact ⟨hg.1, (h g.name).mpr hg.2⟩

/-- Witness for C10: a duplicated name list expands as its
deduplication does. -/
theorem layers_of_groups_ext_witness :
    "a" ∈ sampleT.layers_of_groups ["g1", "g1"] ↔
      "a" ∈ sampleT.layers_of_groups ["g1"] :=
  layers_of_groups_ext sampleT ["g1", "g1"] ["g1"] (fun n => by simp) "a"

/-! ## Claims about the factory -/

theorem dedup_two (f g : PDKFile) (h : ¬ (g.path = f.path)) :
    dedupByPath [f, g] = [f, g] := by
  simp [dedupByPath, h]

theorem sort_two_le (f g : PDKFile) (h : f.path ≤ g.path) :
    sortByPath [f, g] = [f, g] := by
  simp [sortByPath, insertByPath, h]

theorem sort_two_not_le (f g : PDKFile) (h : ¬ f.path ≤ g.path) :
    sortByPath [f, g] = [g, f] := by
  simp [sortByPath, insertByPath, h]

/-- C6: loading one well-formed file `f` (parsing to table `t`) and one
malformed file `g` skips `g` with a diagnostic and still loads `f`: the
registry holds exactly `t` under its technology name and the diagnostics
name exactly `g`'s path — in whichever order the two files are
discovered.  And a load in which no file parses yields the empty
registry, not an error. -/
theorem factory_skips_malformed (f g : PDKFile) (t : PinPDKInfo)
    (files : List PDKFile)
    (hf : PinPDKInfo.read_json f.data = some t)
    (hg : PinPDKInfo.read_json g.data = none)
    (hpath : f.path ≠ g.path)
    (hall : ∀ x ∈ files, PinPDKInfo.read_json x.data = none) :
    (PinPDKInfoFactory.init [f, g]).pdk_infos_by_tech_name =
      [(t.tech_name, t)] ∧
    (PinPDKInfoFactory.init [f, g]).diagnostics = [g.path] ∧
    (PinPDKInfoFactory.init files).pdk_infos_by_tech_name = [] := by
  have hcompute : PinPDKInfoFactory.init [f, g] =
      ⟨[(t.tech_name, t)], [g.path]⟩ := by
    rw [PinPDKInfoFactory.init, dedup_two f g (fun e => hpath e.symm)]
    by_cases hle : f.path ≤ g.path
    · rw [sort_two_le f g hle]
      simp [List.foldl, processFile, hf, hg, dictInsert]
    · rw [sort_two_not_le f g hle]
      simp [List.foldl, processFile, hf, hg, dictInsert]
  refine ⟨by rw [hcompute], by rw [hcompute], ?_⟩
  rw [PinPDKInfoFactory.init]
  exact foldl_processFile_all_malformed _ _ (fun x hx =>
    hall x (mem_dedupByPath x files (mem_sortByPath x _ hx)))

/-- Witness for C6: `fileGood` parses to `sampleT`, `fileBad` is
malformed, and a load of only malformed files is empty. -/
theorem factory_skips_malformed_witness :
    (PinPDKInfoFactory.init [fileGood, fileBad]).pdk_infos_by_tech_name =
      [("x", sampleT)] ∧
    (PinPDKInfoFactory.init [fileGood, fileBad]).diagnostics = ["b.json"] ∧
    (PinPDKInfoFactory.init [fileBad]).pdk_infos_by_tech_name = [] :=
  factory_skips_malformed fileGood fileBad sampleT [fileBad]
    (by decide) (by decide) (by decide) (by decide)

/-- C7: when two discovered files both declare the same technology name,
no conflict error is raised and the table from the lexicographically
later file path wins, independently of the order in which the two files
are discovered (they are deduplicated and sorted by path before
processing, and each parsed table overwrites any earlier entry with the
same technology name). -/
theorem factory_last_wins (f g : PDKFile) (t u : PinPDKInfo)
    (hf : PinPDKInfo.read_json f.data = some t)
    (hg : PinPDKInfo.read_json g.data = some u)
    (hname : t.tech_name = u.tech_name)
    (hpath : f.path < g.path) :
    (PinPDKInfoFactory.init [f, g]).pdk_info u.tech_name = some u ∧
    (PinPDKInfoFactory.init [g, f]).pdk_info u.tech_name = some u := by
  have hne : ¬ (g.path = f.path) := fun e => absurd (e ▸ hpath) (lt_irrefl _)
  have hle : f.path ≤ g.path := le_of_lt hpath
  have hnle : ¬ (g.path ≤ f.path) := not_le.mpr hpath
  have h1 : PinPDKInfoFactory.init [f, g] = ⟨[(u.tech_name, u)], []⟩ := by
    rw [PinPDKInfoFactory.init, dedup_two f g hne, sort_two_le f g hle]
    simp [List.foldl, processFile, hf, hg, dictInsert, hname]
  have h2 : PinPDKInfoFactory.init [g, f] = ⟨[(u.tech_name, u)], []⟩ := by
    rw [PinPDKInfoFactory.init, dedup_two g f (fun e => hne e.symm),
        sort_two_not_le g f hnle]
    simp [List.foldl, processFile, hf, hg, dictInsert, hname]
  rw [h1, h2]
  constructor <;> simp [PinPDKInfoFactory.pdk_info, List.lookup]

/-- Witness for C7: `fileGood` (`a.json`) and `fileGood2` (`c.json`)
both declare technology `x`; `fileGood2` wins in both discovery
orders. -/
theorem factory_last_wins_witness :
    (PinPDKInfoFactory.init [fileGood, fileGood2]).pdk_info "x" =
      some sampleT2 ∧
    (PinPDKInfoFactory.init [fileGood2, fileGood]).pdk_info "x" =
      some sampleT2 :=
  factory_last_wins fileGood fileGood2 sampleT sampleT2
    (by decide) (by decide) (by decide)
    (by rw [String.lt_iff_toList_lt]; decide)

/-- C8: `pdk_info` is a pure map lookup on the registry: a `some` result
is a binding present in the registry, and a `none` result happens
exactly when the technology name is bound nowhere in the registry; both
outcomes are values, not errors, and the registry itself is untouched
(the operation is a pure function of the factory and the name). -/
theorem pdk_info_spec (fac : PinPDKInfoFactory) (tech : String) :
    (∀ v, fac.pdk_info tech = some v →
      (tech, v) ∈ fac.pdk_infos_by_tech_name) ∧
    (fac.pdk_info tech = none ↔
      tech ∉ fac.pdk_infos_by_tech_name.map Prod.fst) :=
  ⟨fun v h => lookup_mem tech v _ h, lookup_eq_none_iff tech _⟩

/-- A concrete registry for the C8 witness. -/
def sampleFac : PinPDKInfoFactory := ⟨[("x", sampleT)], []⟩

/-- Witness for C8: a hit is a binding of the registry; a miss is
absence. -/
theorem pdk_info_spec_witness :
    ("x", sampleT) ∈ sampleFac.pdk_infos_by_tech_name ∧
    sampleFac.pdk_info "zzz" = none :=
  ⟨(pdk_info_spec sampleFac "x").1 sampleT (by decide),
   (pdk_info_spec sampleFac "zzz").2.mpr (by decide)⟩

/-- C9: serializing any table with `write_json` and deserializing the
result with `read_json` returns the very same table — same technology
name, same group definitions in the same order, same pin layer infos in
the same order. -/
theorem write_read_roundtrip (t : PinPDKInfo) :
    PinPDKInfo.read_json t.write_json = some t := by
  simp [PinPDKInfo.write_json, PinPDKInfo.read_json, List.lookup,
        Json.asStr, decodeAll_groups, decodeAll_plis]
